import Mathlib

/-!
Shallow embedding of the `agorder` order-file pipeline.

The embedded code is the Express route module `routes/orders.js`
(file upload / preview, mapping save, order generation, download)
together with the multer configuration in `server.js`.
Pure data transformations are embedded as Lean functions; the
filesystem-backed stores (the uploads directory and the mapping
directory) are embedded as association lists keyed by name.

JavaScript string primitives (`split`, `trim`, template-literal number
formatting) are embedded as structural recursions over `List Char` so
that every definition evaluates inside the kernel.
-/

namespace Agorder

/-! ## JavaScript string primitives -/

/-- `s.split(sep)` for a one-character separator: splitting `"a,b,"` on `','`
gives `["a", "b", ""]`, and splitting the empty string gives `[""]`. -/
def jsSplit (sep : Char) : List Char → List (List Char)
  | [] => [[]]
  | c :: cs =>
    match jsSplit sep cs, decide (c = sep) with
    | r, true => [] :: r
    | [], false => [[c]]
    | x :: xs, false => (c :: x) :: xs

/-- `s.trim()`: drop whitespace from both ends. -/
def jsTrim (s : List Char) : List Char :=
  ((s.dropWhile Char.isWhitespace).reverse.dropWhile Char.isWhitespace).reverse

/-! ## JavaScript object model

A JS object literal built by repeated `obj[key] = value` assignments is
embedded as an association list in insertion order: assigning an existing
key overwrites its value in place, assigning a fresh key appends it. -/

/-- `obj[k] = v` on a JS object: overwrite in place if `k` is a key,
append otherwise. -/
def objSet {α : Type} (obj : List (String × α)) (k : String) (v : α) :
    List (String × α) :=
  if obj.any (fun p => p.1 == k) then
    obj.map (fun p => if p.1 == k then (k, v) else p)
  else
    obj ++ [(k, v)]

/-- Reading `obj[k]` from a JS object: the value stored at key `k`, if any. -/
def objLookup {α : Type} (obj : List (String × α)) (k : String) : Option α :=
  (obj.find? (fun p => p.1 == k)).map (fun p => p.2)

/-! ## CSV branch of the upload handler (`routes/orders.js`)

The handler reads the file, does `csvData.split('\n').filter(line => line.trim())`,
takes the first surviving line as headers (`split(',')`, each trimmed) and turns
`lines.slice(1, 21)` into header-keyed row objects with
`rowData[header] = values[index] || ''`. -/

/-- `line.split(',').map(v => v.trim())`. -/
def parseCells (line : List Char) : List String :=
  (jsSplit ',' line).map (fun cs => ⟨jsTrim cs⟩)

/-- `csvData.split('\n').filter(line => line.trim())`: the non-blank lines. -/
def csvLines (content : String) : List (List Char) :=
  (jsSplit '\n' content.data).filter (fun l => !(jsTrim l).isEmpty)

/-- The header list: first non-blank line split on commas, values trimmed;
empty when the file has no non-blank line. -/
def csvHeaders (content : String) : List String :=
  match csvLines content with
  | [] => []
  | first :: _ => parseCells first

/-- Number of data rows (non-blank lines after the header line). -/
def csvDataRowCount (content : String) : Nat :=
  (csvLines content).length - 1

/-- The loop `headers.forEach((header, index) => rowData[header] = values[index] || '')`
starting at index `i` with accumulated object `obj`.  `values[index] || ''` is
`values.getD index ""`: out-of-range reads give `undefined` and the empty
string is the only falsy trimmed cell, both replaced by `''`. -/
def makeRowDataFrom (i : Nat) (headers values : List String)
    (obj : List (String × String)) : List (String × String) :=
  match headers with
  | [] => obj
  | h :: t => makeRowDataFrom (i + 1) t values (objSet obj h (values.getD i ""))

/-- One preview row object built from the header list and the parsed cells. -/
def makeRowData (headers values : List String) : List (String × String) :=
  makeRowDataFrom 0 headers values []

/-- `lines.slice(1, 21).map(...)`: the preview rows (at most 20). -/
def csvPreviewRows (content : String) : List (List (String × String)) :=
  match csvLines content with
  | [] => []
  | first :: rest =>
      (rest.take 20).map (fun line => makeRowData (parseCells first) (parseCells line))

/-- The JSON body of a successful upload response (CSV branch); the handler
always sets `success: true` and `totalRows: previewData.length`. -/
structure UploadResponse where
  success : Bool
  headers : List String
  previewData : List (List (String × String))
  totalRows : Nat
deriving DecidableEq

/-- The response the upload handler sends for a CSV file it could read. -/
def uploadCsvResponse (content : String) : UploadResponse :=
  { success := true
    headers := csvHeaders content
    previewData := csvPreviewRows content
    totalRows := (csvPreviewRows content).length }

/-! ## Last-occurrence index

`rowData[header] = ...` runs left to right over the header list, so the value
kept for a duplicated header name is the one written at its last occurrence. -/

/-- Index of the last occurrence of `name` in a list, if any. -/
def lastIdxOf (name : String) : List String → Option Nat
  | [] => none
  | h :: t =>
    match lastIdxOf name t with
    | some i => some (i + 1)
    | none => if h = name then some 0 else none

/-! ## Excel branch of the upload handler (`routes/orders.js`)

The handler reads worksheet row 1 and runs
`firstRow.eachCell((cell, colNumber) => headers.push(cell.value ? cell.value.toString() : `컬럼${colNumber}`))`.
The call passes no `{ includeEmpty: true }`, so ExcelJS's `Row.eachCell`
visits only the positions of row 1 that hold a cell object — handing each
its true 1-based column number — and silently skips positions with no cell
at all; a visited cell's value can still be falsy (null or the empty
string).  Row 1 is embedded as a list of positions, each either `absent`
(no cell object: skipped by `eachCell`) or a `defined` cell carrying an
optional string value. -/

/-- Big-endian decimal digits of `n`, by fuel-indexed structural recursion
(`decDigitsAux fuel n` is correct whenever `n ≤ fuel`). -/
def decDigitsAux : Nat → Nat → List Nat
  | 0, _ => []
  | _ + 1, 0 => []
  | fuel + 1, n + 1 => decDigitsAux fuel ((n + 1) / 10) ++ [(n + 1) % 10]

/-- Big-endian decimal digits of `n` (empty for 0). -/
def decDigits (n : Nat) : List Nat :=
  decDigitsAux n n

/-- Recombining big-endian decimal digits into a number. -/
def ofDigitsBE (l : List Nat) : Nat :=
  l.foldl (fun a d => a * 10 + d) 0

/-- The synthetic header label `` `컬럼${colNumber}` ``: the JS template
literal renders the column number in decimal. -/
def colLabel (colNumber : Nat) : String :=
  "컬럼" ++ ⟨(decDigits colNumber).map Nat.digitChar⟩

/-- JS truthiness of `cell.value` for a string-valued cell: `null`/missing
and the empty string are falsy. -/
def isBlankCell : Option String → Bool
  | none => true
  | some v => v == ""

/-- One header entry: `cell.value ? cell.value.toString() : `컬럼${colNumber}``. -/
def excelHeaderEntry (colNumber : Nat) (cell : Option String) : String :=
  if isBlankCell cell then colLabel colNumber else cell.getD ""

/-- A position of worksheet row 1: either no cell object at all (skipped
by `eachCell` without `includeEmpty`), or a defined cell whose value may
still be null (`none`) or a string. -/
inductive ExcelCell where
  | absent
  | defined (value : Option String)
deriving DecidableEq

/-- Whether a position holds a cell object that `eachCell` visits. -/
def isDefinedCell : ExcelCell → Bool
  | ExcelCell.absent => false
  | ExcelCell.defined _ => true

/-- `firstRow.eachCell(...)` starting at column number `col`: visits the
defined cells with their true column numbers and pushes one header entry
per visited cell; absent positions are skipped and push nothing. -/
def excelHeadersFrom : Nat → List ExcelCell → List String
  | _, [] => []
  | col, ExcelCell.absent :: cs => excelHeadersFrom (col + 1) cs
  | col, ExcelCell.defined v :: cs =>
      excelHeaderEntry col v :: excelHeadersFrom (col + 1) cs

/-- The Excel header list: row 1's positions, column numbers from 1. -/
def excelHeaders (row1 : List ExcelCell) : List String :=
  excelHeadersFrom 1 row1

/-- Number of defined cells strictly before 0-based position `k`: the
index in the header list at which position `k`'s entry lands. -/
def definedBefore (row1 : List ExcelCell) (k : Nat) : Nat :=
  ((row1.take k).filter isDefinedCell).length

/-! ## Upload gating (`server.js` versus `routes/orders.js`)

`server.js` builds `multer({ storage, fileFilter, limits: { fileSize: 10MiB } })`,
but that instance is never attached to a route: the mounted router
`routes/orders.js` builds its own `multer({ storage })` with no
`fileFilter` and no `limits`, and `/upload` uses that one. -/

/-- Is `pat` a prefix of `s`? -/
def isPrefixList (pat s : List Char) : Bool :=
  match pat, s with
  | [], _ => true
  | _ :: _, [] => false
  | p :: ps, c :: cs => p == c && isPrefixList ps cs

/-- Does `s` contain `pat` as a contiguous substring? -/
def containsPat (pat : List Char) : List Char → Bool
  | [] => isPrefixList pat []
  | c :: cs => isPrefixList pat (c :: cs) || containsPat pat (cs)

/-- `/xlsx|xls|csv/.test(s)`: an unanchored regex match, i.e. `s` contains
one of the alternatives as a substring. -/
def allowedTypesRegexTest (s : String) : Bool :=
  containsPat "xlsx".data s.data || containsPat "xls".data s.data ||
    containsPat "csv".data s.data

/-- The `fileFilter` of the `server.js` multer instance, applied to the
lowercased extension of the original name and the declared MIME type:
accept iff the regex matches the extension and the MIME type is
recognised. -/
def serverFileFilterAccepts (extname mimetype : String) : Bool :=
  let extOk := allowedTypesRegexTest extname
  let mimeOk := allowedTypesRegexTest mimetype ||
    mimetype == "application/vnd.openxmlformats-officedocument.spreadsheetml.sheet" ||
    mimetype == "application/vnd.ms-excel" ||
    mimetype == "text/csv"
  mimeOk && extOk

/-- What the `/upload` handler in `routes/orders.js` does with a file. -/
inductive UploadHandling where
  | csvParse
  | excelParseAttempt
  | rejectedBeforeParse
deriving DecidableEq

/-- The `/upload` route: its multer instance has no `fileFilter`, so every
file reaches the handler, which branches only on
`path.extname(originalname).toLowerCase() === '.csv'`; anything else goes
to the ExcelJS `workbook.xlsx.readFile` branch. -/
def ordersUploadHandling (fileExtension : String) : UploadHandling :=
  if fileExtension == ".csv" then .csvParse else .excelParseAttempt

/-- `limits` of the `routes/orders.js` multer instance: absent. -/
def ordersMulterFileSizeLimit : Option Nat := none

/-- `limits: { fileSize: 10 * 1024 * 1024 }` of the `server.js` multer
instance. -/
def serverMulterFileSizeLimit : Option Nat := some (10 * 1024 * 1024)

/-- Whether multer lets a file of `size` bytes through under an optional
`fileSize` limit. -/
def multerAcceptsSize (limit : Option Nat) (size : Nat) : Bool :=
  match limit with
  | none => true
  | some m => size ≤ m

/-- The `server.js` error-handling middleware: a multer `LIMIT_FILE_SIZE`
error is answered with status 400 (size-specific message), anything else
with status 500. -/
def errorMiddlewareStatus (isMulterError : Bool) (code : String) : Nat :=
  if isMulterError && code == "LIMIT_FILE_SIZE" then 400 else 500

/-! ## Mapping store (`/mapping` handler) and generation (`/generate` handler) -/

/-- The record written to `<mappingName>.json` by the `/mapping` handler. -/
structure MappingData where
  name : String
  createdAt : String
  sourceFields : List String
  targetFields : List String
  rules : List (String × String)
deriving DecidableEq

/-- The mappings directory: one JSON record per mapping name
(`fs.writeFileSync` overwrites an existing record of the same name). -/
abbrev MappingStore := List (String × MappingData)

/-- The `/mapping` handler: build the record, write it under
`<mappingName>.json`, and answer with `mappingId: mappingName`. -/
def saveMappingHandler (store : MappingStore) (mappingName createdAt : String)
    (sourceFields targetFields : List String)
    (mappingRules : List (String × String)) : MappingStore × String :=
  (objSet store mappingName
    ⟨mappingName, createdAt, sourceFields, targetFields, mappingRules⟩,
   mappingName)

/-- State seen by the `/generate` handler: the uploads directory and the
mappings directory. -/
structure GenState where
  uploadsDirFiles : List String
  mappings : MappingStore

/-- Control flow of the `/generate` handler up to the conversion call:
either a 404 because the uploaded file is missing, or a call to
`convertToStandardFormat` with the loaded mapping rules (`none` stands for
the default `{}` used when no mapping record exists). -/
inductive GenerateOutcome where
  | uploadedFileNotFound404
  | convertWith (mappingRules : Option MappingData)
deriving DecidableEq

/-- The `/generate` handler: 404 if `fileId` is not in the uploads
directory; otherwise `mappingRules = {}`, replaced by the parsed record
when `<mappingId>.json` exists, and conversion proceeds. -/
def generateHandler (st : GenState) (fileId mappingId : String) :
    GenerateOutcome :=
  if st.uploadsDirFiles.contains fileId then
    .convertWith (objLookup st.mappings mappingId)
  else
    .uploadedFileNotFound404

/-! ## Download handler (`/download/:fileName`) -/

/-- Outcome of the `/download/:fileName` handler. -/
inductive DownloadOutcome where
  | notFound404
  | sendFile200 (fileName : String)
deriving DecidableEq

/-- The download handler: 404 unless a file of that name exists in the
uploads directory, else serve it. -/
def downloadHandler (uploadsDirFiles : List String) (fileName : String) :
    DownloadOutcome :=
  if uploadsDirFiles.contains fileName then .sendFile200 fileName
  else .notFound404

/-- Uploaded files and generated order files share the uploads directory;
`generatedFiles` records which of its names were produced by `/generate`. -/
structure StorageState where
  uploadsDirFiles : List String
  generatedFiles : List String

/-! ## Converter -/

/-- Modelled from the spec: `convertToStandardFormat` lives in
`utils/converter.js`, which is not among the provided sources.  Spec §4.4:
a row that cannot be mapped — e.g. a required source field is absent — is
recorded in the error list and skipped; here a row is mappable iff every
required source field is present in it. -/
def rowMappable (requiredSourceFields : List String)
    (row : List (String × String)) : Bool :=
  requiredSourceFields.all (fun f => (objLookup row f).isSome)

/-- Modelled from the spec: the result of a conversion — count of
successfully processed rows plus the per-row error list (1-based row
index and reason). -/
structure ConversionResult where
  processedRows : Nat
  errors : List (Nat × String)
deriving DecidableEq

/-- Modelled from the spec: the reason recorded for an unmappable row. -/
def missingFieldMsg : String := "missing required source field"

/-- Modelled from the spec: the row loop of `convertToStandardFormat`,
starting at 0-based row index `idx` with `processed` rows written and
errors `errs` so far; an unmappable row is recorded with its 1-based index
and processing continues (a single bad row never aborts the batch). -/
def convertRowsFrom (requiredSourceFields : List String) :
    Nat → List (List (String × String)) → Nat → List (Nat × String) →
    ConversionResult
  | _, [], processed, errs => ⟨processed, errs⟩
  | idx, r :: rs, processed, errs =>
    if rowMappable requiredSourceFields r then
      convertRowsFrom requiredSourceFields (idx + 1) rs (processed + 1) errs
    else
      convertRowsFrom requiredSourceFields (idx + 1) rs processed
        (errs ++ [(idx + 1, missingFieldMsg)])

/-- Modelled from the spec: convert all source rows. -/
def convertRows (requiredSourceFields : List String)
    (rows : List (List (String × String))) : ConversionResult :=
  convertRowsFrom requiredSourceFields 0 rows 0 []


/-! ## Lemmas: the JS object model -/

theorem objLookup_cons {α : Type} (p : String × α) (obj : List (String × α))
    (k : String) :
    objLookup (p :: obj) k = if p.1 == k then some p.2 else objLookup obj k := by
  cases h : p.1 == k <;> simp [objLookup, List.find?_cons, h]

theorem objLookup_eq_none_of_any_eq_false {α : Type} (obj : List (String × α))
    (k : String) (h : obj.any (fun p => p.1 == k) = false) :
    objLookup obj k = none := by
  induction obj with
  | nil => rfl
  | cons p obj ih =>
      simp only [List.any_cons, Bool.or_eq_false_iff] at h
      rw [objLookup_cons, h.1, if_neg (by simp)]
      exact ih h.2

theorem objLookup_append {α : Type} (l₁ l₂ : List (String × α)) (k : String) :
    objLookup (l₁ ++ l₂) k =
      match objLookup l₁ k with
      | some v => some v
      | none => objLookup l₂ k := by
  induction l₁ with
  | nil => rfl
  | cons p l₁ ih =>
      rw [List.cons_append, objLookup_cons, objLookup_cons]
      cases h : p.1 == k <;> simp [ih]

theorem objLookup_replace_self {α : Type} (obj : List (String × α))
    (k : String) (v : α) (h : obj.any (fun p => p.1 == k) = true) :
    objLookup (obj.map (fun p => if p.1 == k then (k, v) else p)) k = some v := by
  induction obj with
  | nil => simp at h
  | cons p obj ih =>
      simp only [List.any_cons, Bool.or_eq_true] at h
      cases hp : p.1 == k with
      | true =>
          simp only [List.map_cons, hp, if_pos rfl]
          rw [objLookup_cons]
          simp
      | false =>
          simp only [List.map_cons, hp]
          rw [if_neg (by simp [hp]), objLookup_cons, if_neg (by simp [hp])]
          exact ih (h.resolve_left (by simp [hp]))

theorem objLookup_replace_other {α : Type} (obj : List (String × α))
    (k k' : String) (v : α) (hk : k' ≠ k) :
    objLookup (obj.map (fun p => if p.1 == k then (k, v) else p)) k' =
      objLookup obj k' := by
  have h1 : (k == k') = false := beq_eq_false_iff_ne.mpr (Ne.symm hk)
  induction obj with
  | nil => rfl
  | cons p obj ih =>
      cases hp : p.1 == k with
      | true =>
          have hpk : p.1 = k := by simpa using hp
          simp only [List.map_cons]
          rw [if_pos hp, objLookup_cons, objLookup_cons]
          have h2 : (p.1 == k') = false := by rw [hpk]; exact h1
          rw [h1, h2]
          simp only [Bool.false_eq_true, if_false, ih]
      | false =>
          simp only [List.map_cons]
          rw [if_neg (by simp [hp]), objLookup_cons, objLookup_cons, ih]

theorem objLookup_objSet {α : Type} (obj : List (String × α)) (k k' : String)
    (v : α) :
    objLookup (objSet obj k v) k' =
      if k' = k then some v else objLookup obj k' := by
  unfold objSet
  cases ha : obj.any (fun p => p.1 == k) with
  | true =>
      rw [if_pos rfl]
      by_cases hk : k' = k
      · subst hk; rw [if_pos rfl, objLookup_replace_self obj k' v ha]
      · rw [if_neg hk, objLookup_replace_other obj k k' v hk]
  | false =>
      rw [if_neg (by simp)]
      rw [objLookup_append]
      by_cases hk : k' = k
      · subst hk
        rw [objLookup_eq_none_of_any_eq_false obj k' ha, if_pos rfl]
        rw [objLookup_cons]
        simp
      · rw [if_neg hk]
        cases h : objLookup obj k' with
        | some w => rfl
        | none =>
            rw [objLookup_cons]
            have h1 : (k == k') = false := beq_eq_false_iff_ne.mpr (Ne.symm hk)
            simp [h1, objLookup]

theorem keys_replace {α : Type} (obj : List (String × α)) (k : String) (v : α) :
    (obj.map (fun p => if p.1 == k then (k, v) else p)).map Prod.fst =
      obj.map Prod.fst := by
  induction obj with
  | nil => rfl
  | cons p obj ih =>
      have hfst : (if p.1 == k then (k, v) else p).1 = p.1 := by
        by_cases hp : (p.1 == k) = true
        · have hpk : p.1 = k := by simpa using hp
          rw [if_pos hp, hpk]
        · rw [if_neg hp]
      simp only [List.map_cons, hfst, ih]

theorem keys_objSet {α : Type} (obj : List (String × α)) (k : String) (v : α) :
    (objSet obj k v).map Prod.fst =
      if obj.any (fun p => p.1 == k) then obj.map Prod.fst
      else obj.map Prod.fst ++ [k] := by
  unfold objSet
  cases ha : obj.any (fun p => p.1 == k) with
  | true => rw [if_pos rfl, if_pos rfl, keys_replace]
  | false =>
      rw [if_neg (by simp), if_neg (by simp)]
      simp

theorem keys_nodup_objSet {α : Type} (obj : List (String × α)) (k : String)
    (v : α) (h : (obj.map Prod.fst).Nodup) :
    ((objSet obj k v).map Prod.fst).Nodup := by
  rw [keys_objSet]
  cases ha : obj.any (fun p => p.1 == k) with
  | true => simpa using h
  | false =>
      simp only [Bool.false_eq_true, if_false]
      have hk : k ∉ obj.map Prod.fst := by
        intro hmem
        obtain ⟨p, hp, hpk⟩ := List.mem_map.mp hmem
        have htrue : obj.any (fun q => q.1 == k) = true :=
          List.any_eq_true.mpr ⟨p, hp, by simp [hpk]⟩
        rw [ha] at htrue
        cases htrue
      rw [List.nodup_append]
      exact ⟨h, List.nodup_singleton k, by
        intro a ha1 ha2
        simp only [List.mem_singleton] at ha2
        subst ha2
        exact hk ha1⟩

theorem objLookup_isSome_iff {α : Type} (obj : List (String × α)) (k : String) :
    (objLookup obj k).isSome = true ↔ k ∈ obj.map Prod.fst := by
  induction obj with
  | nil => simp [objLookup]
  | cons p obj ih =>
      rw [objLookup_cons]
      cases hp : p.1 == k with
      | true =>
          have hpk : p.1 = k := by simpa using hp
          simp [hpk]
      | false =>
          have hne : k ≠ p.1 := by
            intro e
            rw [e] at hp
            simp at hp
          simp only [Bool.false_eq_true, if_false, List.map_cons, List.mem_cons]
          rw [ih]
          constructor
          · intro h; exact Or.inr h
          · intro h; exact h.resolve_left hne

/-! ## Lemmas: last occurrence index -/

theorem getD_mem_of_lt : ∀ (l : List String) (j : Nat), j < l.length →
    l.getD j "" ∈ l := by
  intro l
  induction l with
  | nil => intro j h; simp at h
  | cons hd t ih =>
      intro j hj
      cases j with
      | zero => rw [List.getD_cons_zero]; exact List.mem_cons_self hd t
      | succ j' =>
          rw [List.getD_cons_succ]
          exact List.mem_cons_of_mem hd (ih j' (by simpa using hj))

theorem lastIdxOf_eq_none_iff (name : String) (l : List String) :
    lastIdxOf name l = none ↔ name ∉ l := by
  induction l with
  | nil => simp [lastIdxOf]
  | cons hd t ih =>
      simp only [lastIdxOf]
      cases hl : lastIdxOf name t with
      | some i =>
          have hmem : name ∈ t := by
            by_contra hn
            rw [ih.mpr hn] at hl
            cases hl
          simp [hmem]
      | none =>
          have hnt : name ∉ t := ih.mp hl
          by_cases hh : hd = name
          · simp [hh]
          · have hne : ¬name = hd := fun e => hh e.symm
            simp [hh, hnt, hne]

theorem lastIdxOf_spec (name : String) : ∀ (l : List String) (m : Nat),
    lastIdxOf name l = some m →
    m < l.length ∧ l.getD m "" = name ∧
      ∀ j, m < j → j < l.length → l.getD j "" ≠ name := by
  intro l
  induction l with
  | nil => intro m h; simp [lastIdxOf] at h
  | cons hd t ih =>
      intro m h
      simp only [lastIdxOf] at h
      cases hl : lastIdxOf name t with
      | some i =>
          rw [hl] at h
          have hm : i + 1 = m := by simpa using h
          subst hm
          obtain ⟨h1, h2, h3⟩ := ih i hl
          refine ⟨by simpa using Nat.succ_lt_succ h1, by simpa using h2, ?_⟩
          intro j hji hjl
          cases j with
          | zero => omega
          | succ j' =>
              rw [List.getD_cons_succ]
              exact h3 j' (by omega) (by simpa using hjl)
      | none =>
          rw [hl] at h
          by_cases hh : hd = name
          · rw [if_pos hh] at h
            have hm : 0 = m := by simpa using h
            subst hm
            refine ⟨by simp, by simpa using hh, ?_⟩
            intro j hj0 hjl
            cases j with
            | zero => omega
            | succ j' =>
                rw [List.getD_cons_succ]
                intro he
                exact (lastIdxOf_eq_none_iff name t).mp hl
                  (he ▸ getD_mem_of_lt t j' (by simpa using hjl))
          · rw [if_neg hh] at h
            cases h


theorem objLookup_makeRowDataFrom (headers : List String) :
    ∀ (i : Nat) (obj : List (String × String)) (values : List String)
      (name : String),
    objLookup (makeRowDataFrom i headers values obj) name =
      match lastIdxOf name headers with
      | some m => some (values.getD (i + m) "")
      | none => objLookup obj name := by
  induction headers with
  | nil => intro i obj values name; rfl
  | cons h t ih =>
      intro i obj values name
      show objLookup (makeRowDataFrom (i + 1) t values
        (objSet obj h (values.getD i ""))) name = _
      rw [ih]
      cases hl : lastIdxOf name t with
      | some m =>
          have hcons : lastIdxOf name (h :: t) = some (m + 1) := by
            simp only [lastIdxOf, hl]
          rw [hcons]
          have harith : i + 1 + m = i + (m + 1) := by omega
          simp only [harith]
      | none =>
          have hcons : lastIdxOf name (h :: t) =
              if h = name then some 0 else none := by
            simp only [lastIdxOf, hl]
          rw [hcons]
          by_cases hh : h = name
          · subst hh
            simp [objLookup_objSet]
          · have hne : ¬name = h := fun e => hh e.symm
            simp [objLookup_objSet, hh, hne]

theorem objLookup_makeRowData (headers values : List String) (name : String) :
    objLookup (makeRowData headers values) name =
      match lastIdxOf name headers with
      | some m => some (values.getD m "")
      | none => none := by
  unfold makeRowData
  rw [objLookup_makeRowDataFrom]
  cases hl : lastIdxOf name headers with
  | some m => simp
  | none => rfl

theorem lastIdxOf_ge (name : String) : ∀ (l : List String) (i : Nat),
    i < l.length → l.getD i "" = name →
    ∃ m, lastIdxOf name l = some m ∧ i ≤ m := by
  intro l
  induction l with
  | nil => intro i h; simp at h
  | cons hd t ih =>
      intro i hi hget
      cases i with
      | zero =>
          rw [List.getD_cons_zero] at hget
          cases hl : lastIdxOf name t with
          | some m => exact ⟨m + 1, by simp only [lastIdxOf, hl], Nat.zero_le _⟩
          | none =>
              exact ⟨0, by simp only [lastIdxOf, hl]; rw [if_pos hget],
                Nat.le_refl 0⟩
      | succ i' =>
          rw [List.getD_cons_succ] at hget
          obtain ⟨m, hm, him⟩ := ih i' (by simpa using hi) hget
          exact ⟨m + 1, by simp only [lastIdxOf, hm], by omega⟩

theorem keys_nodup_makeRowDataFrom (headers : List String) :
    ∀ (i : Nat) (obj : List (String × String)) (values : List String),
    (obj.map Prod.fst).Nodup →
    ((makeRowDataFrom i headers values obj).map Prod.fst).Nodup := by
  induction headers with
  | nil => intro i obj values h; exact h
  | cons hd t ih =>
      intro i obj values h
      exact ih (i + 1) _ values (keys_nodup_objSet obj hd _ h)

theorem keys_nodup_makeRowData (headers values : List String) :
    ((makeRowData headers values).map Prod.fst).Nodup :=
  keys_nodup_makeRowDataFrom headers 0 [] values List.nodup_nil

theorem makeRowData_lookup_isSome (headers values : List String)
    (name : String) :
    (objLookup (makeRowData headers values) name).isSome = true ↔
      name ∈ headers := by
  rw [objLookup_makeRowData]
  cases hl : lastIdxOf name headers with
  | some m =>
      have hmem : name ∈ headers := by
        by_contra hn
        rw [(lastIdxOf_eq_none_iff name headers).mpr hn] at hl
        cases hl
      simp [hmem]
  | none => simp [(lastIdxOf_eq_none_iff name headers).mp hl]

/-! ## Lemmas: decimal rendering and synthetic Excel header labels -/

theorem ofDigitsBE_append_digit (l : List Nat) (d : Nat) :
    ofDigitsBE (l ++ [d]) = ofDigitsBE l * 10 + d := by
  unfold ofDigitsBE
  rw [List.foldl_append]
  rfl

theorem ofDigitsBE_decDigitsAux : ∀ (fuel n : Nat), n ≤ fuel →
    ofDigitsBE (decDigitsAux fuel n) = n := by
  intro fuel
  induction fuel with
  | zero =>
      intro n h
      have hn : n = 0 := by omega
      subst hn
      rfl
  | succ f ih =>
      intro n h
      cases n with
      | zero => rfl
      | succ n' =>
          show ofDigitsBE (decDigitsAux f ((n' + 1) / 10) ++ [(n' + 1) % 10]) =
            n' + 1
          rw [ofDigitsBE_append_digit]
          have hdiv : (n' + 1) / 10 < n' + 1 :=
            Nat.div_lt_self (Nat.succ_pos n') (by norm_num)
          rw [ih ((n' + 1) / 10) (by omega)]
          rw [Nat.mul_comm]
          exact Nat.div_add_mod (n' + 1) 10

theorem decDigits_inj (a b : Nat) (h : decDigits a = decDigits b) : a = b := by
  have ha : ofDigitsBE (decDigits a) = a :=
    ofDigitsBE_decDigitsAux a a (Nat.le_refl a)
  have hb : ofDigitsBE (decDigits b) = b :=
    ofDigitsBE_decDigitsAux b b (Nat.le_refl b)
  rw [← ha, ← hb, h]

theorem decDigitsAux_lt_ten : ∀ (fuel n : Nat), ∀ d ∈ decDigitsAux fuel n,
    d < 10 := by
  intro fuel
  induction fuel with
  | zero => intro n d hd; simp [decDigitsAux] at hd
  | succ f ih =>
      intro n d hd
      cases n with
      | zero => simp [decDigitsAux] at hd
      | succ n' =>
          rw [show decDigitsAux (f + 1) (n' + 1) =
            decDigitsAux f ((n' + 1) / 10) ++ [(n' + 1) % 10] from rfl] at hd
          rcases List.mem_append.mp hd with hmem | hmem
          · exact ih _ d hmem
          · have : d = (n' + 1) % 10 := by simpa using hmem
            subst this
            exact Nat.mod_lt _ (by norm_num)

theorem digitChar_inj_lt (a b : Nat) (ha : a < 10) (hb : b < 10)
    (h : Nat.digitChar a = Nat.digitChar b) : a = b := by
  have key : ∀ x y : Fin 10, Nat.digitChar x.val = Nat.digitChar y.val →
      x = y := by decide
  exact congrArg Fin.val (key ⟨a, ha⟩ ⟨b, hb⟩ h)

theorem map_digitChar_inj : ∀ (l₁ l₂ : List Nat), (∀ d ∈ l₁, d < 10) →
    (∀ d ∈ l₂, d < 10) → l₁.map Nat.digitChar = l₂.map Nat.digitChar →
    l₁ = l₂ := by
  intro l₁
  induction l₁ with
  | nil =>
      intro l₂ _ _ h
      cases l₂ with
      | nil => rfl
      | cons b t₂ => simp at h
  | cons a t ih =>
      intro l₂ h1 h2 h
      cases l₂ with
      | nil => simp at h
      | cons b t₂ =>
          simp only [List.map_cons, List.cons.injEq] at h
          have hab := digitChar_inj_lt a b (h1 a (List.mem_cons_self a t))
            (h2 b (List.mem_cons_self b t₂)) h.1
          rw [hab, ih t₂ (fun d hd => h1 d (List.mem_cons_of_mem a hd))
            (fun d hd => h2 d (List.mem_cons_of_mem b hd)) h.2]

theorem colLabel_inj (a b : Nat) (h : colLabel a = colLabel b) : a = b := by
  unfold colLabel at h
  have hdata := congrArg String.data h
  rw [String.data_append, String.data_append] at hdata
  have hmap : (decDigits a).map Nat.digitChar = (decDigits b).map Nat.digitChar :=
    List.append_cancel_left hdata
  exact decDigits_inj a b (map_digitChar_inj _ _
    (decDigitsAux_lt_ten a a) (decDigitsAux_lt_ten b b) hmap)

/-- Each visited cell contributes one header entry, absent positions
contribute none. -/
theorem excelHeadersFrom_length : ∀ (row1 : List ExcelCell) (col : Nat),
    (excelHeadersFrom col row1).length = (row1.filter isDefinedCell).length := by
  intro row1
  induction row1 with
  | nil => intro col; rfl
  | cons c cs ih =>
      intro col
      cases c with
      | absent =>
          show (excelHeadersFrom (col + 1) cs).length = _
          rw [ih (col + 1)]
          simp [List.filter_cons, isDefinedCell]
      | defined v =>
          show (excelHeaderEntry col v :: excelHeadersFrom (col + 1) cs).length = _
          simp [List.filter_cons, isDefinedCell, ih (col + 1)]

/-- The header entry produced for the defined cell at 0-based position `k`
sits at output index `definedBefore row1 k` and carries the cell's true
column number. -/
theorem excelHeadersFrom_getD_defined : ∀ (row1 : List ExcelCell)
      (col k : Nat) (v : Option String), k < row1.length →
    row1.getD k ExcelCell.absent = ExcelCell.defined v →
    (excelHeadersFrom col row1).getD (definedBefore row1 k) "" =
      excelHeaderEntry (col + k) v := by
  intro row1
  induction row1 with
  | nil => intro col k v hk; simp at hk
  | cons c cs ih =>
      intro col k v hk hget
      cases k with
      | zero =>
          rw [List.getD_cons_zero] at hget
          subst hget
          show (excelHeaderEntry col v :: excelHeadersFrom (col + 1) cs).getD
            (definedBefore (ExcelCell.defined v :: cs) 0) "" = _
          rw [show definedBefore (ExcelCell.defined v :: cs) 0 = 0 from rfl,
            List.getD_cons_zero, Nat.add_zero]
      | succ k' =>
          rw [List.getD_cons_succ] at hget
          have hk' : k' < cs.length := by simpa using hk
          have harith : col + 1 + k' = col + (k' + 1) := by omega
          cases c with
          | absent =>
              show (excelHeadersFrom (col + 1) cs).getD
                (definedBefore (ExcelCell.absent :: cs) (k' + 1)) "" = _
              have hdb : definedBefore (ExcelCell.absent :: cs) (k' + 1) =
                  definedBefore cs k' := by
                unfold definedBefore
                simp [List.take_succ_cons, List.filter_cons, isDefinedCell]
              rw [hdb, ih (col + 1) k' v hk' hget, harith]
          | defined w =>
              show (excelHeaderEntry col w :: excelHeadersFrom (col + 1) cs).getD
                (definedBefore (ExcelCell.defined w :: cs) (k' + 1)) "" = _
              have hdb : definedBefore (ExcelCell.defined w :: cs) (k' + 1) =
                  definedBefore cs k' + 1 := by
                unfold definedBefore
                simp [List.take_succ_cons, List.filter_cons, isDefinedCell]
              rw [hdb, List.getD_cons_succ, ih (col + 1) k' v hk' hget, harith]

/-! ## Lemmas: the converter row loop -/

theorem convertRowsFrom_all_mappable (req : List String) :
    ∀ (rows : List (List (String × String))) (idx processed : Nat)
      (errs : List (Nat × String)),
    (∀ r ∈ rows, rowMappable req r = true) →
    convertRowsFrom req idx rows processed errs =
      ⟨processed + rows.length, errs⟩ := by
  intro rows
  induction rows with
  | nil => intro idx processed errs _; rfl
  | cons r rs ih =>
      intro idx processed errs hall
      show (if rowMappable req r then
          convertRowsFrom req (idx + 1) rs (processed + 1) errs
        else
          convertRowsFrom req (idx + 1) rs processed
            (errs ++ [(idx + 1, missingFieldMsg)])) = _
      rw [if_pos (hall r (List.mem_cons_self r rs))]
      rw [ih (idx + 1) (processed + 1) errs
        (fun x hx => hall x (List.mem_cons_of_mem r hx))]
      have : processed + 1 + rs.length = processed + (rs.length + 1) := by omega
      rw [this]
      rfl

theorem convertRowsFrom_append (req : List String) :
    ∀ (xs ys : List (List (String × String))) (idx processed : Nat)
      (errs : List (Nat × String)),
    convertRowsFrom req idx (xs ++ ys) processed errs =
      convertRowsFrom req (idx + xs.length) ys
        (convertRowsFrom req idx xs processed errs).processedRows
        (convertRowsFrom req idx xs processed errs).errors := by
  intro xs
  induction xs with
  | nil => intro ys idx processed errs; rfl
  | cons x xs ih =>
      intro ys idx processed errs
      show (if rowMappable req x then
          convertRowsFrom req (idx + 1) (xs ++ ys) (processed + 1) errs
        else
          convertRowsFrom req (idx + 1) (xs ++ ys) processed
            (errs ++ [(idx + 1, missingFieldMsg)])) = _
      have hlen : idx + (x :: xs).length = idx + 1 + xs.length := by
        simp [List.length_cons]; omega
      cases hx : rowMappable req x with
      | true =>
          rw [if_pos rfl, ih ys (idx + 1) (processed + 1) errs]
          have hrhs : convertRowsFrom req idx (x :: xs) processed errs =
              convertRowsFrom req (idx + 1) xs (processed + 1) errs := by
            show (if rowMappable req x then _ else _) = _
            rw [hx]
            simp
          rw [hrhs, hlen]
      | false =>
          rw [if_neg (by simp), ih ys (idx + 1) processed
            (errs ++ [(idx + 1, missingFieldMsg)])]
          have hrhs : convertRowsFrom req idx (x :: xs) processed errs =
              convertRowsFrom req (idx + 1) xs processed
                (errs ++ [(idx + 1, missingFieldMsg)]) := by
            show (if rowMappable req x then _ else _) = _
            rw [hx]
            simp
          rw [hrhs, hlen]

/-- Every preview row is the header loop's object for some cell-value
list. -/
theorem csvPreviewRows_mem (content : String) (row : List (String × String))
    (hrow : row ∈ csvPreviewRows content) :
    ∃ values, row = makeRowData (csvHeaders content) values := by
  revert hrow
  unfold csvPreviewRows csvHeaders
  cases hl : csvLines content with
  | nil => intro hrow; exact absurd hrow (List.not_mem_nil row)
  | cons first rest =>
      intro hrow
      obtain ⟨line, _, rfl⟩ := List.mem_map.mp hrow
      exact ⟨parseCells line, rfl⟩

/-! ## Claim theorems -/

/-- C1: For every CSV upload with N data rows (N ≥ 0), the preview holds
exactly min(N, 20) rows; each preview row's key set coincides with the
header list (first non-blank line split on commas, values trimmed); and
each row arises from a parsed cell-value list in which every header
position at or past the end of the list — an absent trailing cell — is
mapped to the empty string. -/
theorem csv_preview_shape (content : String) :
    (csvPreviewRows content).length = min (csvDataRowCount content) 20 ∧
    (∀ row ∈ csvPreviewRows content, ∀ k,
      (objLookup row k).isSome = true ↔ k ∈ csvHeaders content) ∧
    (∀ row ∈ csvPreviewRows content, ∃ values : List String,
      row = makeRowData (csvHeaders content) values ∧
      ∀ i, i < (csvHeaders content).length → values.length ≤ i →
        objLookup row ((csvHeaders content).getD i "") = some "") := by
  unfold csvPreviewRows csvHeaders csvDataRowCount
  cases hl : csvLines content with
  | nil => refine ⟨by simp, by simp, by simp⟩
  | cons first rest =>
      refine ⟨?_, ?_, ?_⟩
      · simp [List.length_map, List.length_take, List.length_cons, Nat.min_comm]
      · intro row hrow k
        obtain ⟨line, _, rfl⟩ := List.mem_map.mp hrow
        exact makeRowData_lookup_isSome (parseCells first) (parseCells line) k
      · intro row hrow
        obtain ⟨line, _, rfl⟩ := List.mem_map.mp hrow
        refine ⟨parseCells line, rfl, ?_⟩
        intro i hi hlen
        obtain ⟨m, hm, him⟩ :=
          lastIdxOf_ge ((parseCells first).getD i "") (parseCells first) i hi rfl
        rw [objLookup_makeRowData, hm]
        show some ((parseCells line).getD m "") = some ""
        rw [List.getD_eq_default _ _ (by omega)]

/-- C1 witness: the spec's own end-to-end example `id,qty` with rows
`1,5` and `2,7`. -/
theorem csv_preview_shape_witness :
    (csvPreviewRows "id,qty\n1,5\n2,7").length =
      min (csvDataRowCount "id,qty\n1,5\n2,7") 20 ∧
    (objLookup ((csvPreviewRows "id,qty\n1,5\n2,7").getD 0 []) "id").isSome =
      true := by
  constructor
  · exact (csv_preview_shape "id,qty\n1,5\n2,7").1
  · exact ((csv_preview_shape "id,qty\n1,5\n2,7").2.1 _ (by decide) "id").mpr
      (by decide)

/-- C2: saving a mapping under a name and loading that name returns the
saved definition (round trip), and saving the same name twice makes a load
return the second definition (last-write-wins overwrite). -/
theorem mapping_save_load_roundtrip (store : MappingStore)
    (n c₁ c₂ : String) (sf₁ tf₁ sf₂ tf₂ : List String)
    (r₁ r₂ : List (String × String)) :
    objLookup (saveMappingHandler store n c₁ sf₁ tf₁ r₁).1 n =
      some ⟨n, c₁, sf₁, tf₁, r₁⟩ ∧
    objLookup (saveMappingHandler
        (saveMappingHandler store n c₁ sf₁ tf₁ r₁).1 n c₂ sf₂ tf₂ r₂).1 n =
      some ⟨n, c₂, sf₂, tf₂, r₂⟩ := by
  constructor <;>
    · unfold saveMappingHandler
      rw [objLookup_objSet, if_pos rfl]

/-- C2 witness: a concrete round trip and overwrite. -/
theorem mapping_save_load_roundtrip_witness :
    objLookup (saveMappingHandler [] "m" "t1" ["a"] ["x"] [("a", "x")]).1 "m" =
      some ⟨"m", "t1", ["a"], ["x"], [("a", "x")]⟩ ∧
    objLookup (saveMappingHandler
        (saveMappingHandler [] "m" "t1" ["a"] ["x"] [("a", "x")]).1
        "m" "t2" ["b"] ["y"] [("b", "y")]).1 "m" =
      some ⟨"m", "t2", ["b"], ["y"], [("b", "y")]⟩ :=
  mapping_save_load_roundtrip [] "m" "t1" "t2" ["a"] ["x"] ["b"] ["y"]
    [("a", "x")] [("b", "y")]

/-- C3 counterexample: with uploaded file "f" present and an empty mapping
store, generating with the unknown mapping name "m" does not fail with a
NotFound error — the handler proceeds to conversion with the default empty
rules object. -/
theorem generate_missing_mapping_cex :
    objLookup ([] : MappingStore) "m" = none ∧
    generateHandler ⟨["f"], []⟩ "f" "m" = .convertWith none ∧
    generateHandler ⟨["f"], []⟩ "f" "m" ≠ .uploadedFileNotFound404 := by
  refine ⟨rfl, by decide, by decide⟩

/-- C3 amended: loading a missing mapping does not fail; whenever the
uploaded file exists, the generate operation proceeds to conversion with
the default empty rules (`{}`); its only NotFound response concerns the
uploaded file. -/
theorem generate_missing_mapping_proceeds (st : GenState)
    (fileId mappingId : String)
    (hmap : objLookup st.mappings mappingId = none)
    (hfile : st.uploadsDirFiles.contains fileId = true) :
    generateHandler st fileId mappingId = .convertWith none := by
  unfold generateHandler
  rw [if_pos hfile, hmap]

/-- C3 amended witness. -/
theorem generate_missing_mapping_proceeds_witness :
    generateHandler ⟨["g"], []⟩ "g" "m2" = .convertWith none :=
  generate_missing_mapping_proceeds ⟨["g"], []⟩ "g" "m2" rfl rfl

/-- C4: the fileFilter in `server.js` would reject a `.pdf`
(`UnsupportedType`), but it sits on a multer instance no route uses; the
`/upload` route's own multer has no filter, so a `.pdf` reaches the
handler and Excel parsing is attempted on it instead of an up-front
rejection. -/
theorem upload_pdf_not_rejected_before_parse :
    serverFileFilterAccepts ".pdf" "application/pdf" = false ∧
    ordersUploadHandling ".pdf" = .excelParseAttempt ∧
    ordersUploadHandling ".pdf" ≠ .rejectedBeforeParse := by
  refine ⟨by decide, by decide, by decide⟩

/-- C5: the 10 MiB `fileSize` limit and the 400 `LIMIT_FILE_SIZE` handler
exist in `server.js`, but the `/upload` route's own multer instance has no
limits, so a file of 10 MiB + 1 byte is let through rather than rejected
with the size-specific 400. -/
theorem upload_oversize_not_rejected :
    multerAcceptsSize ordersMulterFileSizeLimit (10 * 1024 * 1024 + 1) = true ∧
    multerAcceptsSize serverMulterFileSizeLimit (10 * 1024 * 1024 + 1) = false ∧
    errorMiddlewareStatus true "LIMIT_FILE_SIZE" = 400 := by
  refine ⟨rfl, by decide, by decide⟩

/-- C6 counterexample: row 1 with no cell object in column 1 and the value
"b" in column 2.  `eachCell` without `includeEmpty` skips the blank
position, so the returned header list is just `["b"]`: the blank cell at
column 1 is not replaced by the synthetic label `컬럼1` — that label
appears nowhere — and the later header shifts left instead. -/
theorem excel_blank_header_skipped_cex :
    excelHeaders [ExcelCell.absent, ExcelCell.defined (some "b")] = ["b"] ∧
    colLabel 1 ∉ excelHeaders [ExcelCell.absent, ExcelCell.defined (some "b")] := by
  refine ⟨by decide, by decide⟩

/-- C6 amended: only a blank header cell that ExcelJS still materialises
as a cell object (a null or empty-string value) is replaced by the
synthetic label `컬럼<k+1>` incorporating its 1-based column position —
the entry lands at the output index `definedBefore row1 k` — and no two
synthetic labels of one header row are equal; a blank position with no
cell object is skipped by `eachCell`, contributing no entry at all, so the
header list has one entry per defined cell. -/
theorem excel_blank_header_labels_amended (row1 : List ExcelCell) :
    (∀ k v, k < row1.length →
      row1.getD k ExcelCell.absent = ExcelCell.defined v →
      isBlankCell v = true →
      (excelHeaders row1).getD (definedBefore row1 k) "" = colLabel (k + 1)) ∧
    (∀ k k' v v', k < row1.length → k' < row1.length → k ≠ k' →
      row1.getD k ExcelCell.absent = ExcelCell.defined v →
      row1.getD k' ExcelCell.absent = ExcelCell.defined v' →
      isBlankCell v = true → isBlankCell v' = true →
      (excelHeaders row1).getD (definedBefore row1 k) "" ≠
        (excelHeaders row1).getD (definedBefore row1 k') "") ∧
    (excelHeaders row1).length = (row1.filter isDefinedCell).length := by
  have hpart1 : ∀ k v, k < row1.length →
      row1.getD k ExcelCell.absent = ExcelCell.defined v →
      isBlankCell v = true →
      (excelHeaders row1).getD (definedBefore row1 k) "" = colLabel (k + 1) := by
    intro k v hk hget hb
    unfold excelHeaders
    rw [excelHeadersFrom_getD_defined row1 1 k v hk hget]
    unfold excelHeaderEntry
    rw [if_pos hb]
    have h1k : 1 + k = k + 1 := by omega
    rw [h1k]
  refine ⟨hpart1, ?_, excelHeadersFrom_length row1 1⟩
  intro k k' v v' hk hk' hne hget hget' hb hb'
  rw [hpart1 k v hk hget hb, hpart1 k' v' hk' hget' hb']
  intro he
  have := colLabel_inj (k + 1) (k' + 1) he
  omega

/-- C6 amended witness: defined blank cells in columns 1 and 3 around an
absent position in column 2. -/
theorem excel_blank_header_labels_amended_witness :
    (excelHeaders [ExcelCell.defined none, ExcelCell.absent,
        ExcelCell.defined (some "")]).getD 0 "" = colLabel 1 ∧
    (excelHeaders [ExcelCell.defined none, ExcelCell.absent,
        ExcelCell.defined (some "")]).getD 0 "" ≠
      (excelHeaders [ExcelCell.defined none, ExcelCell.absent,
        ExcelCell.defined (some "")]).getD 1 "" ∧
    (excelHeaders [ExcelCell.defined none, ExcelCell.absent,
        ExcelCell.defined (some "")]).length = 2 := by
  refine ⟨?_, ?_, ?_⟩
  · exact (excel_blank_header_labels_amended
      [ExcelCell.defined none, ExcelCell.absent, ExcelCell.defined (some "")]).1
      0 none (by decide) (by decide) (by decide)
  · exact (excel_blank_header_labels_amended
      [ExcelCell.defined none, ExcelCell.absent, ExcelCell.defined (some "")]).2.1
      0 2 none (some "") (by decide) (by decide) (by decide) (by decide)
      (by decide) (by decide) (by decide)
  · exact ((excel_blank_header_labels_amended
      [ExcelCell.defined none, ExcelCell.absent,
        ExcelCell.defined (some "")]).2.2).trans (by decide)

/-- C7 counterexample: after one upload and no generate call, the uploads
directory holds "orderFile-1.csv" and no name was ever produced by
generate, yet downloading that name answers 200 with the file, not 404. -/
theorem download_ungenerated_cex :
    "orderFile-1.csv" ∉
      (⟨["orderFile-1.csv"], []⟩ : StorageState).generatedFiles ∧
    downloadHandler (⟨["orderFile-1.csv"], []⟩ : StorageState).uploadsDirFiles
      "orderFile-1.csv" = .sendFile200 "orderFile-1.csv" ∧
    downloadHandler (⟨["orderFile-1.csv"], []⟩ : StorageState).uploadsDirFiles
      "orderFile-1.csv" ≠ .notFound404 := by
  refine ⟨by decide, by decide, by decide⟩

/-- C7 amended: download answers 404 exactly when no file of that name is
in the uploads directory; a name that is absent there gets 404, but a name
present as an uploaded file is served with 200 even though generate never
produced it, because uploaded and generated files share the directory. -/
theorem download_absent_404 (files : List String) (name : String) :
    (files.contains name = false →
      downloadHandler files name = .notFound404) ∧
    (files.contains name = true →
      downloadHandler files name = .sendFile200 name) := by
  constructor
  · intro h
    unfold downloadHandler
    rw [h]
    simp
  · intro h
    unfold downloadHandler
    rw [if_pos h]

/-- C7 amended witness. -/
theorem download_absent_404_witness :
    downloadHandler ["a.xlsx"] "nope.xlsx" = .notFound404 ∧
    downloadHandler ["a.xlsx"] "a.xlsx" = .sendFile200 "a.xlsx" :=
  ⟨(download_absent_404 ["a.xlsx"] "nope.xlsx").1 (by decide),
   (download_absent_404 ["a.xlsx"] "a.xlsx").2 (by decide)⟩

/-- C8 (modelled from the spec, since `utils/converter.js` is not among
the sources): a source file whose rows are all mappable except one — a row
missing a required source field — converts to processedRows = totalRows − 1
with exactly one error entry carrying that row's 1-based index; the
surrounding rows are still processed. -/
theorem convert_single_bad_row (req : List String)
    (pre post : List (List (String × String))) (bad : List (String × String))
    (hbad : rowMappable req bad = false)
    (hpre : ∀ r ∈ pre, rowMappable req r = true)
    (hpost : ∀ r ∈ post, rowMappable req r = true) :
    convertRows req (pre ++ bad :: post) =
      ⟨(pre ++ bad :: post).length - 1, [(pre.length + 1, missingFieldMsg)]⟩ := by
  unfold convertRows
  rw [convertRowsFrom_append req pre (bad :: post) 0 0 [],
    convertRowsFrom_all_mappable req pre 0 0 [] hpre]
  show convertRowsFrom req (0 + pre.length) (bad :: post) (0 + pre.length) [] = _
  have hstep : convertRowsFrom req (0 + pre.length) (bad :: post)
      (0 + pre.length) [] =
      convertRowsFrom req (0 + pre.length + 1) post (0 + pre.length)
        ([] ++ [(0 + pre.length + 1, missingFieldMsg)]) := by
    show (if rowMappable req bad then _ else _) = _
    rw [if_neg (by simp [hbad])]
  rw [hstep, convertRowsFrom_all_mappable req post _ _ _ hpost]
  simp [ConversionResult.mk.injEq, List.length_append, List.length_cons]

/-- C8 witness: three rows, the middle one missing the required `id`. -/
theorem convert_single_bad_row_witness :
    convertRows ["id"] [[("id", "1")], [("qty", "9")], [("id", "2")]] =
      ⟨2, [(2, missingFieldMsg)]⟩ :=
  convert_single_bad_row ["id"] [[("id", "1")]] [[("id", "2")]]
    [("qty", "9")] (by decide) (by decide) (by decide)

/-- C9: a CSV upload whose content has no non-blank line succeeds with
`success: true`, an empty header list, an empty preview and
`totalRows = 0`, instead of failing. -/
theorem upload_empty_csv (content : String) (h : csvLines content = []) :
    uploadCsvResponse content = ⟨true, [], [], 0⟩ := by
  unfold uploadCsvResponse csvHeaders csvPreviewRows
  rw [h]
  rfl

/-- C9 witness: a file of blank lines only. -/
theorem upload_empty_csv_witness :
    csvLines " \n " = [] ∧ uploadCsvResponse " \n " = ⟨true, [], [], 0⟩ :=
  ⟨by decide, upload_empty_csv " \n " (by decide)⟩

/-- C10: when the header line repeats a name, a preview row keeps exactly
one entry for that name, whose value comes from the last duplicate column
position (the last occurrence index, whose cell is the last one carrying
the name); and the number of entries in a row can be smaller than the
header list's length, as the upload "a,a\nx,y" shows. -/
theorem csv_duplicate_headers (content name : String)
    (hdup : 2 ≤ (csvHeaders content).count name) :
    (∀ row ∈ csvPreviewRows content,
      (row.map Prod.fst).count name = 1 ∧
      ∃ values m, row = makeRowData (csvHeaders content) values ∧
        lastIdxOf name (csvHeaders content) = some m ∧
        (csvHeaders content).getD m "" = name ∧
        (∀ j, m < j → j < (csvHeaders content).length →
          (csvHeaders content).getD j "" ≠ name) ∧
        objLookup row name = some (values.getD m "")) ∧
    ((csvPreviewRows "a,a\nx,y").getD 0 []).length <
      (csvHeaders "a,a\nx,y").length := by
  have hmem : name ∈ csvHeaders content := by
    by_contra hn
    rw [List.count_eq_zero_of_not_mem hn] at hdup
    omega
  refine ⟨?_, by decide⟩
  intro row hrow
  obtain ⟨values, rfl⟩ := csvPreviewRows_mem content row hrow
  constructor
  · have hnodup := keys_nodup_makeRowData (csvHeaders content) values
    have hmemk : name ∈ (makeRowData (csvHeaders content) values).map Prod.fst :=
      (objLookup_isSome_iff _ name).mp
        ((makeRowData_lookup_isSome _ values name).mpr hmem)
    exact List.count_eq_one_of_mem hnodup hmemk
  · cases hm : lastIdxOf name (csvHeaders content) with
    | none => exact absurd hmem ((lastIdxOf_eq_none_iff name _).mp hm)
    | some m =>
        obtain ⟨h1, h2, h3⟩ := lastIdxOf_spec name (csvHeaders content) m hm
        refine ⟨values, m, rfl, rfl, h2, h3, ?_⟩
        rw [objLookup_makeRowData, hm]

/-- C10 witness: the duplicated header `a` of the upload "a,a\nx,y" keeps a
single row entry. -/
theorem csv_duplicate_headers_witness :
    (((csvPreviewRows "a,a\nx,y").getD 0 []).map Prod.fst).count "a" = 1 :=
  ((csv_duplicate_headers "a,a\nx,y" "a" (by decide)).1
    ((csvPreviewRows "a,a\nx,y").getD 0 []) (by decide)).1

end Agorder
